import Mathlib

/-!
Shallow embedding of the dashmarketing export service (`src/main.py`) and
proofs about its date normalization, month chunking, pagination, retry,
audit and streaming-serialization logic.
-/

namespace DM

/-- Calendar dates, modelling Python `datetime.date` triples. -/
structure Date where
  year : ℕ
  month : ℕ
  day : ℕ
deriving DecidableEq, Repr

/-- Lexicographic strict order on dates, as Python compares `datetime.date`. -/
def Date.ltP (a b : Date) : Prop :=
  a.year < b.year ∨ (a.year = b.year ∧ (a.month < b.month ∨ (a.month = b.month ∧ a.day < b.day)))

/-- Lexicographic order on dates, as Python compares `datetime.date`. -/
def Date.leP (a b : Date) : Prop :=
  a.year < b.year ∨ (a.year = b.year ∧ (a.month < b.month ∨ (a.month = b.month ∧ a.day ≤ b.day)))

instance : LT Date := ⟨Date.ltP⟩

instance : LE Date := ⟨Date.leP⟩

instance (a b : Date) : Decidable (a < b) :=
  inferInstanceAs (Decidable (a.year < b.year ∨ (a.year = b.year ∧ (a.month < b.month ∨ (a.month = b.month ∧ a.day < b.day)))))

instance (a b : Date) : Decidable (a ≤ b) :=
  inferInstanceAs (Decidable (a.year < b.year ∨ (a.year = b.year ∧ (a.month < b.month ∨ (a.month = b.month ∧ a.day ≤ b.day)))))

theorem Date.lt_iff (a b : Date) :
    a < b ↔ (a.year < b.year ∨ (a.year = b.year ∧ (a.month < b.month ∨ (a.month = b.month ∧ a.day < b.day)))) :=
  Iff.rfl

theorem Date.le_iff (a b : Date) :
    a ≤ b ↔ (a.year < b.year ∨ (a.year = b.year ∧ (a.month < b.month ∨ (a.month = b.month ∧ a.day ≤ b.day)))) :=
  Iff.rfl

theorem Date.le_refl (a : Date) : a ≤ a := by
  rw [Date.le_iff]; omega

theorem Date.le_trans {a b c : Date} (h1 : a ≤ b) (h2 : b ≤ c) : a ≤ c := by
  rw [Date.le_iff] at *; omega

theorem Date.le_total (a b : Date) : a ≤ b ∨ b ≤ a := by
  rw [Date.le_iff, Date.le_iff]; omega

theorem Date.not_le {a b : Date} : ¬ a ≤ b ↔ b < a := by
  rw [Date.le_iff, Date.lt_iff]; omega

theorem Date.le_of_lt {a b : Date} (h : a < b) : a ≤ b := by
  rw [Date.lt_iff] at h; rw [Date.le_iff]; omega

/-- Gregorian leap-year rule, as used by Python's `datetime`. -/
def isLeap (y : ℕ) : Bool :=
  y % 4 = 0 && (y % 100 ≠ 0 || y % 400 = 0)

/-- Number of days in a Gregorian month. -/
def daysInMonth (y m : ℕ) : ℕ :=
  if m = 2 then (if isLeap y then 29 else 28)
  else if m = 4 ∨ m = 6 ∨ m = 9 ∨ m = 11 then 30
  else 31

/-- A structurally valid Gregorian date (what `datetime.date` accepts). -/
def isValidDate (d : Date) : Prop :=
  1 ≤ d.year ∧ 1 ≤ d.month ∧ d.month ≤ 12 ∧ 1 ≤ d.day ∧ d.day ≤ daysInMonth d.year d.month

instance (d : Date) : Decidable (isValidDate d) :=
  inferInstanceAs (Decidable (_ ∧ _ ∧ _ ∧ _ ∧ _))

/-- Python `max(a, b)` on dates: the second argument wins only when strictly greater. -/
def pyMax (a b : Date) : Date := if a < b then b else a

/-- Python `min(a, b)` on dates: the second argument wins only when strictly smaller. -/
def pyMin (a b : Date) : Date := if b < a then b else a

/-- The previous calendar day, modelling `d - datetime.timedelta(days=1)` on valid dates. -/
def predDate (d : Date) : Date :=
  if 1 < d.day then ⟨d.year, d.month, d.day - 1⟩
  else if 1 < d.month then ⟨d.year, d.month - 1, daysInMonth d.year (d.month - 1)⟩
  else ⟨d.year - 1, 12, 31⟩

/-- The next calendar day, modelling `d + datetime.timedelta(days=1)` on valid dates.
Used only to state adjacency of the monthly sub-ranges. -/
def succDate (d : Date) : Date :=
  if d.day < daysInMonth d.year d.month then ⟨d.year, d.month, d.day + 1⟩
  else if d.month < 12 then ⟨d.year, d.month + 1, 1⟩
  else ⟨d.year + 1, 1, 1⟩

/-- `cur.replace(day=1)` from `_month_range_iter`. -/
def firstOfMonth (d : Date) : Date := ⟨d.year, d.month, 1⟩

/-- The first day of the following month, as computed in `_month_range_iter`
and in `exportar_mensual._gen`: `year + month // 12`, `month % 12 + 1`, day 1. -/
def nextMonthFirst (d : Date) : Date := ⟨d.year + d.month / 12, d.month % 12 + 1, 1⟩

/-- Last day of the month containing `d`. -/
def endOfMonth (d : Date) : Date := ⟨d.year, d.month, daysInMonth d.year d.month⟩

/-- Linear month index used to measure the month iteration. -/
def monthIdx (d : Date) : ℕ := 12 * d.year + d.month

/-- Fuel-indexed body of the `while cur <= end` loop of `_month_range_iter`.
The fuel passed by `_month_range_iter` always dominates the number of
iterations of the Python loop, which advances by exactly one month per step. -/
def monthRangeAux (e : Date) : ℕ → Date → List Date
  | 0, _ => []
  | fuel + 1, cur => if cur ≤ e then cur :: monthRangeAux e fuel (nextMonthFirst cur) else []

/-- `_month_range_iter(start, end)` from `src/main.py`: the first days of all
months from `start`'s month up to `end`. -/
def _month_range_iter (s e : Date) : List Date :=
  monthRangeAux e (monthIdx e + 1 - monthIdx (firstOfMonth s)) (firstOfMonth s)

/-- Per-month sub-range construction of `exportar_mensual._gen` (lines 360-366):
month end is the eve of the next month's first day, clamped to `e`; month start
is clamped to `s`; months whose clamped range is empty are skipped. -/
def rangeOf (s e m0 : Date) : Option (Date × Date) :=
  let mEnd0 := predDate (nextMonthFirst m0)
  let mEnd := if e < mEnd0 then e else mEnd0
  let mStart := if m0 < s then s else m0
  if mEnd < mStart then none else some (mStart, mEnd)

/-- The list of monthly sub-ranges actually queried by `exportar_mensual._gen`. -/
def monthSubRanges (s e : Date) : List (Date × Date) :=
  (_month_range_iter s e).filterMap (rangeOf s e)

/-- Numeric value of an ASCII digit. -/
def digitVal (c : Char) : ℕ := c.toNat - 48

/-- Grab one or two leading digits (maximal munch), as the `%m` / `%d`
directives of `strptime` match one- or two-digit fields. -/
def grabNum2 : List Char → Option (ℕ × List Char)
  | a :: b :: rest =>
    if a.isDigit then
      if b.isDigit then some (10 * digitVal a + digitVal b, rest)
      else some (digitVal a, b :: rest)
    else none
  | [a] => if a.isDigit then some (digitVal a, []) else none
  | [] => none

/-- Model of `datetime.datetime.strptime(s, "%Y-%m-%d").date()`: exactly four
year digits, one or two month digits in 1..12, one or two day digits valid for
the month, nothing before or after; `none` models the raised `ValueError`. -/
def parseDate (s : String) : Option Date :=
  match s.toList with
  | y1 :: y2 :: y3 :: y4 :: h1 :: rest =>
    if y1.isDigit ∧ y2.isDigit ∧ y3.isDigit ∧ y4.isDigit ∧ h1 = '-' then
      match grabNum2 rest with
      | some (m, rest2) =>
        match rest2 with
        | h2 :: rest3 =>
          if h2 = '-' then
            match grabNum2 rest3 with
            | some (d, []) =>
              let y := 1000 * digitVal y1 + 100 * digitVal y2 + 10 * digitVal y3 + digitVal y4
              if 1 ≤ y ∧ 1 ≤ m ∧ m ≤ 12 ∧ 1 ≤ d ∧ d ≤ daysInMonth y m then
                some ⟨y, m, d⟩
              else none
            | _ => none
          else none
        | [] => none
      | none => none
    else none
  | _ => none

/-- Zero-pad to two digits, as `date.isoformat` prints months and days. -/
def pad2 (n : ℕ) : String := if n < 10 then "0" ++ Nat.repr n else Nat.repr n

/-- Zero-pad to four digits, as `date.isoformat` prints years. -/
def pad4 (n : ℕ) : String :=
  if n < 10 then "000" ++ Nat.repr n
  else if n < 100 then "00" ++ Nat.repr n
  else if n < 1000 then "0" ++ Nat.repr n
  else Nat.repr n

/-- `date.isoformat()`. -/
def Date.toIso (d : Date) : String := pad4 d.year ++ "-" ++ pad2 d.month ++ "-" ++ pad2 d.day

/-- `MIN_START_DATE = dt.date(2024, 1, 1)` from `src/main.py`. -/
def MIN_START_DATE : Date := ⟨2024, 1, 1⟩

/-- A FastAPI `HTTPException`, reduced to its status code and detail string. -/
structure HTTPError where
  status_code : ℕ
  detail : String
deriving DecidableEq, Repr

/-- `_parse_date` from `src/main.py`: parse or raise a 400 naming the input. -/
def _parse_date (s : String) : Except HTTPError Date :=
  match parseDate s with
  | some d => .ok d
  | none => .error ⟨400, "Invalid date format: " ++ s ++ ". Expected YYYY-MM-DD"⟩

/-- `_clamp_dates` from `src/main.py`, with the current date passed explicitly
(the code reads `dt.date.today()`): clamp start up to the floor, end down to
yesterday, and reject an empty clamped range with a 400. -/
def _clamp_dates (today : Date) (start stop : String) : Except HTTPError (String × String) :=
  match _parse_date start with
  | .error err => .error err
  | .ok s0 =>
    let s := pyMax s0 MIN_START_DATE
    match _parse_date stop with
    | .error err => .error err
    | .ok e0 =>
      let e := pyMin e0 (predDate today)
      if e < s then
        .error ⟨400, "Invalid range after clamp: " ++ s.toIso ++ " > " ++ e.toIso⟩
      else .ok (s.toIso, e.toIso)

/-! ## Row conversion and the running aggregator -/

/-- Numeric value of a digit string read left to right. -/
def digitsToNat (cs : List Char) : ℕ := cs.foldl (fun a c => 10 * a + digitVal c) 0

/-- ASCII whitespace stripped by Python `float(str)`. -/
def isPySpace (c : Char) : Bool :=
  c = ' ' || c = '\t' || c = '\n' || c = '\r' || c.toNat = 11 || c.toNat = 12

/-- Both-ends whitespace strip, as Python applies before parsing a float. -/
def pyStrip (cs : List Char) : List Char :=
  ((cs.dropWhile isPySpace).reverse.dropWhile isPySpace).reverse

/-- Model of Python `float(s)` on optionally signed decimal numerals with
optional fraction and exponent, surrounding ASCII whitespace stripped.
Special values (`inf`, `nan`) and digit underscores are outside this model;
`none` models the raised `ValueError`. -/
def pyFloat (s : String) : Option ℚ :=
  let cs := pyStrip s.toList
  let sgnCs : ℚ × List Char :=
    match cs with
    | '+' :: r => (1, r)
    | '-' :: r => (-1, r)
    | r => (1, r)
  let sgn := sgnCs.1
  let cs1 := sgnCs.2
  let ipart := cs1.takeWhile Char.isDigit
  let rest1 := cs1.dropWhile Char.isDigit
  let fparts : List Char × List Char :=
    match rest1 with
    | '.' :: r => (r.takeWhile Char.isDigit, r.dropWhile Char.isDigit)
    | r => ([], r)
  let fpart := fparts.1
  let rest2 := fparts.2
  if ipart.isEmpty ∧ fpart.isEmpty then none
  else
    let mant : ℚ := (digitsToNat ipart : ℚ) + (digitsToNat fpart : ℚ) / (10 : ℚ) ^ fpart.length
    match rest2 with
    | [] => some (sgn * mant)
    | e :: r =>
      if e = 'e' ∨ e = 'E' then
        let esgnR : ℤ × List Char :=
          match r with
          | '+' :: rr => (1, rr)
          | '-' :: rr => (-1, rr)
          | rr => (1, rr)
        let ed := esgnR.2.takeWhile Char.isDigit
        if ed.isEmpty ∨ ¬ (esgnR.2.dropWhile Char.isDigit).isEmpty then none
        else some (sgn * mant * (10 : ℚ) ^ (esgnR.1 * (digitsToNat ed : ℤ)))
      else none

/-- Values stored in a serialized report row: dimension strings, metric floats,
or JSON null for an empty metric value. -/
inductive Val where
  | vs (s : String)
  | vf (q : ℚ)
  | vnull
deriving DecidableEq, Repr

/-- One raw row of a `RunReport` response: dimension and metric value strings
in schema order (protobuf values are always strings, never `None`). -/
structure RawRow where
  dimension_values : List String
  metric_values : List String
deriving DecidableEq, Repr

/-- The fixed dimension schema of `_dims()`. -/
def DIMS : List String :=
  ["date", "country", "city", "deviceCategory", "pagePath", "sessionSource",
   "sessionMedium", "sessionCampaignName"]

/-- The fixed metric schema of `_mets()`. -/
def METS : List String :=
  ["activeUsers", "newUsers", "sessions", "screenPageViews", "engagementRate",
   "bounceRate", "averageSessionDuration", "conversions", "totalRevenue"]

/-- Metric-value conversion from `_row_to_dict`:
`float(val) if (val is not None and val != "") else None`, where a
non-empty unparsable value makes `float` raise (`none` here). -/
def metricVal (v : String) : Option Val :=
  if v = "" then some .vnull else (pyFloat v).map .vf

/-- `_row_to_dict(row, dims, mets)` from `src/main.py`: dimension values keyed
by dimension name, then metric values keyed by metric name, in schema order.
`none` models an exception (an index error on a short row, or `float` raising
on an unparsable non-empty metric value). -/
def _row_to_dict (r : RawRow) : Option (List (String × Val)) :=
  if DIMS.length ≤ r.dimension_values.length ∧ METS.length ≤ r.metric_values.length then
    match (r.metric_values.take METS.length).mapM metricVal with
    | some ms =>
      some ((DIMS.zip r.dimension_values).map (fun p => (p.1, Val.vs p.2)) ++ METS.zip ms)
    | none => none
  else none

/-- `_pct_diff(a, b)` from `src/main.py`:
`0.0 if (b or 0.0) == 0.0 else (a - b) / b`. -/
def _pct_diff (a b : ℚ) : ℚ := if b = 0 then 0 else (a - b) / b

/-- The five running accumulators of `exportar_datos._gen`
(`sum_sessions`, `sum_users`, `sum_views`, `sum_conv`, `sum_rev`). -/
structure Totals where
  sessions : ℚ
  activeUsers : ℚ
  screenPageViews : ℚ
  conversions : ℚ
  totalRevenue : ℚ
deriving DecidableEq, Repr

/-- `d.get(k) or 0.0` applied to a metric key of a row dict: the metric's
float when present and nonzero-or-zero, and `0.0` for null or missing. -/
def getNum (d : List (String × Val)) (k : String) : ℚ :=
  match d.lookup k with
  | some (.vf q) => q
  | _ => 0

/-- One row's contribution to the running totals (lines 249-255). -/
def addRow (t : Totals) (d : List (String × Val)) : Totals :=
  { sessions := t.sessions + getNum d "sessions"
    activeUsers := t.activeUsers + getNum d "activeUsers"
    screenPageViews := t.screenPageViews + getNum d "screenPageViews"
    conversions := t.conversions + getNum d "conversions"
    totalRevenue := t.totalRevenue + getNum d "totalRevenue" }

/-- The zero totals each export starts from. -/
def zeroTotals : Totals := ⟨0, 0, 0, 0, 0⟩

/-- The audit `diff_pct` object (lines 292-298). -/
def auditDiff (sums agg : Totals) : Totals :=
  { sessions := _pct_diff sums.sessions agg.sessions
    activeUsers := _pct_diff sums.activeUsers agg.activeUsers
    screenPageViews := _pct_diff sums.screenPageViews agg.screenPageViews
    conversions := _pct_diff sums.conversions agg.conversions
    totalRevenue := _pct_diff sums.totalRevenue agg.totalRevenue }

/-! ## Retry-wrapped fetcher -/

/-- Backoff computation of `_run_report` (lines 174-179):
`sleep = min(2 ** (attempt - 1) + random.random(), 60)`, then raised to at
least a parseable `Retry-After` hint. `jitter` stands for the `random.random()`
draw and `retryAfter` for a present-and-parseable hint (an absent or
unparsable header leaves the sleep unchanged, which `none` models). -/
def computeSleep (attempt : ℕ) (jitter : ℚ) (retryAfter : Option ℚ) : ℚ :=
  let s := min ((2 : ℚ) ^ (attempt - 1) + jitter) 60
  match retryAfter with
  | some h => max s h
  | none => s

/-- The `for attempt in range(1, GA4_MAX_RETRIES + 1)` loop of `_run_report`,
with the fuel equal to the number of remaining attempts. Returns the final
outcome together with the list of backoff sleeps actually executed
(`time.sleep` on line 183); `none` models the loop body never running
(only possible when the retry ceiling is below the starting attempt). -/
def runReportLoop {ε α : Type} (fetch : ℕ → Except ε α) (jit : ℕ → ℚ)
    (ra : ℕ → Option ℚ) (maxR : ℕ) : ℕ → ℕ → Option (Except ε α × List ℚ)
  | 0, _ => none
  | fuel + 1, attempt =>
    match fetch attempt with
    | .ok v => some (.ok v, [])
    | .error err =>
      let s := computeSleep attempt (jit attempt) (ra attempt)
      if attempt = maxR then some (.error err, [])
      else
        match runReportLoop fetch jit ra maxR fuel (attempt + 1) with
        | some (res, sleeps) => some (res, s :: sleeps)
        | none => none

/-- `_run_report` from `src/main.py`: run the attempt loop from attempt 1 with
retry ceiling `maxR` (`GA4_MAX_RETRIES`, default 3). -/
def _run_report {ε α : Type} (fetch : ℕ → Except ε α) (jit : ℕ → ℚ)
    (ra : ℕ → Option ℚ) (maxR : ℕ) : Option (Except ε α × List ℚ) :=
  runReportLoop fetch jit ra maxR maxR 1

/-! ## Whole-range pagination engine (`exportar_datos._gen`) -/

/-- A `RunReport` response as `exportar_datos._gen` consumes it: rows, the
optional `row_count` hint and the optional `next_page_token`. -/
structure Resp where
  rows : List RawRow
  row_count : Option ℕ
  next_page_token : Option String
deriving Repr

/-- Python truthiness of the continuation token (`if page_token:`): present
and non-empty. -/
def tokenTruthy : Option String → Bool
  | none => false
  | some t => !(t == "")

/-- Loop state of `exportar_datos._gen`: the cursor (`page_token`, `offset`),
the page counter, the first non-`None` `row_count` hint, the emitted row dicts
in order, and the running totals. -/
structure GenState where
  pageToken : Option String
  offset : ℕ
  pages : ℕ
  total : Option ℕ
  rows : List (List (String × Val))
  sums : Totals
deriving DecidableEq, Repr

/-- Convert and accumulate one page of rows (the `for r in resp.rows` body,
lines 249-262): each row is converted by `_row_to_dict`, added to the running
totals, and emitted. `none` models the conversion raising mid-page. -/
def processRows (t : Totals) : List RawRow → Option (List (List (String × Val)) × Totals)
  | [] => some ([], t)
  | r :: rs =>
    match _row_to_dict r with
    | none => none
    | some d =>
      match processRows (addRow t d) rs with
      | none => none
      | some (ds, t2) => some (d :: ds, t2)

/-- Result of a run of the generator loop: the final state and the list of
`(page_token, offset)` cursor pairs passed to `_run_report`, in call order. -/
structure GenResult where
  final : GenState
  calls : List (Option String × ℕ)
deriving DecidableEq, Repr

/-- Outcome of one iteration of the `while True` loop: an exception while
converting rows, a terminal iteration (`break`), or a continuing one. -/
inductive StepOut where
  | err
  | stop (st : GenState)
  | next (st : GenState)
deriving DecidableEq, Repr

/-- One iteration of the pagination loop of `exportar_datos._gen`
(lines 241-278): fetch the cursor's page, adopt the first `row_count` hint,
convert/emit/accumulate the rows, stop on an empty page (line 264); otherwise
count the page, advance the cursor by the continuation token (resetting the
offset to zero) or by the batch size (lines 267-272), and stop when the
updated offset reaches the reported total or the page cap is hit (line 273). -/
def genStep (fetch : Option String → ℕ → Resp) (maxPages : ℕ) (st : GenState) : StepOut :=
  let resp := fetch st.pageToken st.offset
  let total := match st.total with
    | some t => some t
    | none => resp.row_count
  match processRows st.sums resp.rows with
  | none => .err
  | some (ds, sums2) =>
    let batch := resp.rows.length
    let st2 : GenState :=
      { st with total := total, rows := st.rows ++ ds, sums := sums2 }
    if batch = 0 then .stop st2
    else
      let pages2 := st2.pages + 1
      let tok2 := resp.next_page_token
      let off2 := if tokenTruthy tok2 then 0 else st2.offset + batch
      let st3 : GenState := { st2 with pages := pages2, pageToken := tok2, offset := off2 }
      if (match st3.total with | some t => t ≤ off2 | none => false) || maxPages ≤ pages2 then
        .stop st3
      else .next st3

/-- The `while True` pagination loop of `exportar_datos._gen`, iterating
`genStep` and recording each `(page_token, offset)` cursor passed to
`_run_report`. The fuel passed by `genRun` strictly dominates the iteration
count, which is bounded by the page cap because every continuing iteration
increments `pages`. -/
def genLoop (fetch : Option String → ℕ → Resp) (maxPages : ℕ) :
    ℕ → GenState → Option GenResult
  | 0, _ => none
  | fuel + 1, st =>
    match genStep fetch maxPages st with
    | .err => none
    | .stop st2 => some ⟨st2, [(st.pageToken, st.offset)]⟩
    | .next st3 =>
      match genLoop fetch maxPages fuel st3 with
      | some r => some ⟨r.final, (st.pageToken, st.offset) :: r.calls⟩
      | none => none

/-- Initial loop state: no token, offset 0, no pages, no hint, nothing emitted. -/
def initState : GenState := ⟨none, 0, 0, none, [], zeroTotals⟩

/-- One whole-range export run of `exportar_datos._gen` against `fetch` with
page cap `maxPages`. -/
def genRun (fetch : Option String → ℕ → Resp) (maxPages : ℕ) : Option GenResult :=
  genLoop fetch maxPages (maxPages + 1) initState

/-- The `partial` / `reason` computation after the loop (lines 282-289):
`max_pages` when the cap was reached, else `ga4_limit` when a reported total
was not reached by the final offset. -/
def partOf (st : GenState) (maxPages : ℕ) : Bool × Option String :=
  if maxPages ≤ st.pages then (true, some "max_pages")
  else
    match st.total with
    | some t => if st.offset < t then (true, some "ga4_limit") else (false, none)
    | none => (false, none)

/-! ## Streaming serialization (`_dumps` and the emitted chunks) -/

/-- JSON escape of one character as `json.dumps(..., ensure_ascii=False)`
produces it: quote, backslash and control characters escaped, everything else
passed through. -/
def escChar (c : Char) : String :=
  if c = '"' then "\\\""
  else if c = '\\' then "\\\\"
  else if c = '\n' then "\\n"
  else if c = '\t' then "\\t"
  else if c = '\r' then "\\r"
  else if c.toNat = 8 then "\\b"
  else if c.toNat = 12 then "\\f"
  else if c.toNat < 32 then
    "\\u00" ++ String.singleton (Nat.digitChar (c.toNat / 16)) ++ String.singleton (Nat.digitChar (c.toNat % 16))
  else String.singleton c

/-- A JSON string literal for `s`. -/
def dumpsJStr (s : String) : String :=
  "\"" ++ String.join (s.toList.map escChar) ++ "\""

/-- Decimal digits of the fractional part `r / den` (0 < r < den), stopping
when the remainder vanishes; floats always have a finite decimal expansion,
so the fuel is never exhausted on values a float can hold. -/
def fracDigitsAux : ℕ → ℕ → ℕ → String
  | 0, _, _ => ""
  | _, 0, _ => ""
  | fuel + 1, r, den =>
    let r10 := r * 10
    String.singleton (Nat.digitChar (r10 / den)) ++
      (if r10 % den = 0 then "" else fracDigitsAux fuel (r10 % den) den)

/-- Model of Python `repr(float)` as `json.dumps` renders float values, on
floats with a short exact decimal form (all values exercised here): sign,
integer part, a dot, and the exact fractional digits (`".0"` when integral).
Scientific notation for very large or small magnitudes is outside this model. -/
def floatRepr (q : ℚ) : String :=
  let sign := if q < 0 then "-" else ""
  let n := q.num.natAbs
  let den := q.den
  sign ++ Nat.repr (n / den) ++ "." ++
    (if n % den = 0 then "0" else fracDigitsAux 1500 (n % den) den)

/-- Serialization of one row-dict value. -/
def dumpsVal : Val → String
  | .vs s => dumpsJStr s
  | .vf q => floatRepr q
  | .vnull => "null"

/-- `_dumps(d)` for one row dict: a compact JSON object in insertion order
(`separators=(",", ":")`). -/
def dumpsRow (d : List (String × Val)) : String :=
  "\x7b" ++ String.intercalate "," (d.map (fun kv => dumpsJStr kv.1 ++ ":" ++ dumpsVal kv.2)) ++ "\x7d"

/-- Serialization of a five-metric totals object, in the key order the code
builds `detail_totals`, `ga4_aggregate` and `diff_pct`. -/
def dumpsTotals (t : Totals) : String :=
  "\x7b\"sessions\":" ++ floatRepr t.sessions ++
  ",\"activeUsers\":" ++ floatRepr t.activeUsers ++
  ",\"screenPageViews\":" ++ floatRepr t.screenPageViews ++
  ",\"conversions\":" ++ floatRepr t.conversions ++
  ",\"totalRevenue\":" ++ floatRepr t.totalRevenue ++ "\x7d"

/-- JSON rendering of the optional integer `row_count` hint. -/
def dumpsOptNat : Option ℕ → String
  | none => "null"
  | some n => Nat.repr n

/-- JSON rendering of a boolean. -/
def dumpsBool : Bool → String
  | true => "true"
  | false => "false"

/-- `_dumps(body_tail)` (lines 299-323): the trailing metadata object with the
audit embedded, `reason` appended last at both levels when present. -/
def dumpsTail (st : GenState) (maxPages : ℕ) (sIso eIso : String) (agg : Totals) : String :=
  let pr := partOf st maxPages
  let reasonField := match pr.2 with
    | some r => ",\"reason\":" ++ dumpsJStr r
    | none => ""
  "\x7b\"rowCount\":" ++ dumpsOptNat st.total ++
  ",\"start\":" ++ dumpsJStr sIso ++
  ",\"end\":" ++ dumpsJStr eIso ++
  ",\"pages\":" ++ Nat.repr st.pages ++
  ",\"partial\":" ++ dumpsBool pr.1 ++
  ",\"audit\":\x7b\"detail_totals\":" ++ dumpsTotals st.sums ++
  ",\"ga4_aggregate\":" ++ dumpsTotals agg ++
  ",\"diff_pct\":" ++ dumpsTotals (auditDiff st.sums agg) ++
  ",\"rowCount\":" ++ dumpsOptNat st.total ++
  ",\"pages\":" ++ Nat.repr st.pages ++
  ",\"partial\":" ++ dumpsBool pr.1 ++
  reasonField ++ "\x7d" ++
  reasonField ++ "\x7d"

/-- Concatenation of every chunk `exportar_datos._gen` yields, in order
(lines 237, 257-261, 280, 323, 324): the opening `'{"rows":['` marker, the
comma-separated serialized rows, the `'],'` marker, the serialized trailing
object, and the final `'}'`. The aggregate query result is a parameter (it is
a separate RPC). `none` models the generator raising mid-stream. -/
def exportDocument (fetch : Option String → ℕ → Resp) (maxPages : ℕ)
    (sIso eIso : String) (agg : Totals) : Option String :=
  match genRun fetch maxPages with
  | none => none
  | some res =>
    some ("\x7b\"rows\":[" ++ String.intercalate "," (res.final.rows.map dumpsRow) ++ "]," ++
      dumpsTail res.final maxPages sIso eIso agg ++ "\x7d")

/-! ## A JSON (RFC 8259) recognizer, to state syntactic validity -/

/-- Hexadecimal digit test for `\uXXXX` escapes. -/
def isHexDig (c : Char) : Bool :=
  c.isDigit || ('a' ≤ c && c ≤ 'f') || ('A' ≤ c && c ≤ 'F')

/-- JSON insignificant whitespace. -/
def jsWs (c : Char) : Bool :=
  c = ' ' || c = '\t' || c = '\n' || c = '\r'

/-- Drop leading JSON whitespace. -/
def skipWs : List Char → List Char
  | [] => []
  | c :: cs => if jsWs c then skipWs cs else c :: cs

/-- The opening brace character. -/
def lbrace : Char := Char.ofNat 123

/-- The closing brace character. -/
def rbrace : Char := Char.ofNat 125

/-- Recognize the rest of a JSON string after the opening quote, returning the
remainder: plain characters above U+001F, the short escapes, and `\uXXXX`. -/
def stringBody : List Char → Option (List Char)
  | [] => none
  | c :: cs =>
    if c = '"' then some cs
    else if c = '\\' then
      match cs with
      | [] => none
      | e :: cs2 =>
        if e = '"' ∨ e = '\\' ∨ e = '/' ∨ e = 'b' ∨ e = 'f' ∨ e = 'n' ∨ e = 'r' ∨ e = 't' then
          stringBody cs2
        else if e = 'u' then
          match cs2 with
          | h1 :: h2 :: h3 :: h4 :: cs3 =>
            if isHexDig h1 ∧ isHexDig h2 ∧ isHexDig h3 ∧ isHexDig h4 then
              stringBody cs3
            else none
          | _ => none
        else none
    else if c.toNat < 32 then none
    else stringBody cs

/-- Recognize the exponent-or-nothing tail of a JSON number. -/
def numExp (cs : List Char) : Option (List Char) :=
  match cs with
  | 'e' :: r => numExpTail r
  | 'E' :: r => numExpTail r
  | r => some r
where
  /-- Recognize a mandatory signed digit run after `e`/`E`. -/
  numExpTail (r : List Char) : Option (List Char) :=
    let r2 := match r with
      | '+' :: rr => rr
      | '-' :: rr => rr
      | rr => rr
    match r2 with
    | c :: _ =>
      if c.isDigit then some (r2.dropWhile Char.isDigit) else none
    | [] => none

/-- Recognize the fraction-then-exponent tail of a JSON number. -/
def numFrac (cs : List Char) : Option (List Char) :=
  match cs with
  | '.' :: r =>
    match r with
    | c :: _ => if c.isDigit then numExp (r.dropWhile Char.isDigit) else none
    | [] => none
  | r => numExp r

/-- Recognize one JSON number starting at `cs`. -/
def jsNumber (cs : List Char) : Option (List Char) :=
  let cs1 := match cs with
    | '-' :: r => r
    | r => r
  match cs1 with
  | c :: r =>
    if c = '0' then numFrac r
    else if c.isDigit then numFrac (r.dropWhile Char.isDigit)
    else none
  | [] => none

mutual

/-- Recognize one JSON value, returning the remainder. The fuel bounds the
nesting/element recursion and is chosen large enough by `jsonValid`. -/
def jsValue : ℕ → List Char → Option (List Char)
  | 0, _ => none
  | fuel + 1, cs =>
    match cs with
    | [] => none
    | c :: rest =>
      if c = '"' then stringBody rest
      else if c = '[' then
        let cs1 := skipWs rest
        match cs1 with
        | ']' :: r => some r
        | _ => jsElems fuel cs1
      else if c = lbrace then
        let cs1 := skipWs rest
        match cs1 with
        | c2 :: r => if c2 = rbrace then some r else jsMembers fuel cs1
        | [] => none
      else
        match cs with
        | 'n' :: 'u' :: 'l' :: 'l' :: r => some r
        | 't' :: 'r' :: 'u' :: 'e' :: r => some r
        | 'f' :: 'a' :: 'l' :: 's' :: 'e' :: r => some r
        | _ => jsNumber cs

/-- Recognize a non-empty comma-separated element list followed by `]`. -/
def jsElems : ℕ → List Char → Option (List Char)
  | 0, _ => none
  | fuel + 1, cs =>
    match jsValue fuel (skipWs cs) with
    | none => none
    | some r =>
      match skipWs r with
      | ',' :: r2 => jsElems fuel r2
      | ']' :: r2 => some r2
      | _ => none

/-- Recognize a non-empty member list (`"key": value` pairs) followed by the
closing brace. -/
def jsMembers : ℕ → List Char → Option (List Char)
  | 0, _ => none
  | fuel + 1, cs =>
    match skipWs cs with
    | '"' :: r =>
      match stringBody r with
      | none => none
      | some r1 =>
        match skipWs r1 with
        | ':' :: r2 =>
          match jsValue fuel (skipWs r2) with
          | none => none
          | some r3 =>
            match skipWs r3 with
            | c :: r4 =>
              if c = ',' then jsMembers fuel r4
              else if c = rbrace then some r4
              else none
            | [] => none
        | _ => none
    | _ => none

end

/-- A string is syntactically valid JSON when one value, with surrounding
whitespace, consumes it entirely. -/
def jsonValid (s : String) : Bool :=
  match jsValue (2 * s.length + 2) (skipWs s.toList) with
  | some r => (skipWs r).isEmpty
  | none => false

/-! ## Theorems -/

theorem Date.not_lt {a b : Date} : ¬ a < b ↔ b ≤ a := by
  rw [Date.lt_iff, Date.le_iff]; omega

/-- `agg.get(name, 0.0)`: the aggregate value of a metric, 0.0 when absent. -/
def aggGet (o : Option ℚ) : ℚ := o.getD 0

/-- Claim C3: for parseable date strings, the effective start is
`max(requested start, 2024-01-01)` and the effective end is
`min(requested end, today - 1)` (each characterised as an upper/lower bound
attained by one of its arguments); the clamp raises the 400
`Invalid range after clamp` error exactly when effective start exceeds
effective end, and an unparsable string raises the 400
`Invalid date format` error naming that string. -/
theorem clamp_dates_spec (today : Date) (start stop : String) :
    (∀ ds, parseDate start = some ds → ∀ de, parseDate stop = some de →
      (MIN_START_DATE ≤ pyMax ds MIN_START_DATE ∧ ds ≤ pyMax ds MIN_START_DATE ∧
        (pyMax ds MIN_START_DATE = ds ∨ pyMax ds MIN_START_DATE = MIN_START_DATE)) ∧
      (pyMin de (predDate today) ≤ de ∧ pyMin de (predDate today) ≤ predDate today ∧
        (pyMin de (predDate today) = de ∨ pyMin de (predDate today) = predDate today)) ∧
      (pyMax ds MIN_START_DATE ≤ pyMin de (predDate today) →
        _clamp_dates today start stop =
          .ok ((pyMax ds MIN_START_DATE).toIso, (pyMin de (predDate today)).toIso)) ∧
      (¬ pyMax ds MIN_START_DATE ≤ pyMin de (predDate today) →
        _clamp_dates today start stop =
          .error ⟨400, "Invalid range after clamp: " ++ (pyMax ds MIN_START_DATE).toIso ++
            " > " ++ (pyMin de (predDate today)).toIso⟩)) ∧
    (parseDate start = none →
      _clamp_dates today start stop =
        .error ⟨400, "Invalid date format: " ++ start ++ ". Expected YYYY-MM-DD"⟩) ∧
    (∀ ds, parseDate start = some ds → parseDate stop = none →
      _clamp_dates today start stop =
        .error ⟨400, "Invalid date format: " ++ stop ++ ". Expected YYYY-MM-DD"⟩) := by
  refine ⟨fun ds hds de hde => ?_, fun hns => ?_, fun ds hds hne => ?_⟩
  · have hmax1 : MIN_START_DATE ≤ pyMax ds MIN_START_DATE := by
      unfold pyMax; split
      · exact Date.le_refl _
      · exact Date.not_lt.mp (by assumption)
    have hmax2 : ds ≤ pyMax ds MIN_START_DATE := by
      unfold pyMax; split
      · exact Date.le_of_lt (by assumption)
      · exact Date.le_refl _
    have hmax3 : pyMax ds MIN_START_DATE = ds ∨ pyMax ds MIN_START_DATE = MIN_START_DATE := by
      unfold pyMax; split
      · exact Or.inr rfl
      · exact Or.inl rfl
    have hmin1 : pyMin de (predDate today) ≤ de := by
      unfold pyMin; split
      · exact Date.le_of_lt (by assumption)
      · exact Date.le_refl _
    have hmin2 : pyMin de (predDate today) ≤ predDate today := by
      unfold pyMin; split
      · exact Date.le_refl _
      · exact Date.not_lt.mp (by assumption)
    have hmin3 : pyMin de (predDate today) = de ∨ pyMin de (predDate today) = predDate today := by
      unfold pyMin; split
      · exact Or.inr rfl
      · exact Or.inl rfl
    refine ⟨⟨hmax1, hmax2, hmax3⟩, ⟨hmin1, hmin2, hmin3⟩, fun hok => ?_, fun hbad => ?_⟩
    · unfold _clamp_dates _parse_date
      rw [hds, hde]
      simp only
      rw [if_neg (by rw [Date.not_lt]; exact hok)]
    · unfold _clamp_dates _parse_date
      rw [hds, hde]
      simp only
      rw [if_pos (Date.not_le.mp hbad)]
  · unfold _clamp_dates _parse_date
    rw [hns]
  · unfold _clamp_dates _parse_date
    rw [hds, hne]

/-- Witness for C3: a start below the floor and an end in the future clamp to
the floor and to yesterday; the out-of-order leftover raises the range error;
a malformed string raises the format error naming it. -/
theorem clamp_dates_spec_witness :
    _clamp_dates ⟨2024, 6, 15⟩ "2023-12-25" "2099-01-01" = .ok ("2024-01-01", "2024-06-14") ∧
    _clamp_dates ⟨2024, 1, 1⟩ "2024-06-01" "2024-06-30" =
      .error ⟨400, "Invalid range after clamp: 2024-06-01 > 2023-12-31"⟩ ∧
    _clamp_dates ⟨2024, 6, 15⟩ "2024-x" "2099-01-01" =
      .error ⟨400, "Invalid date format: 2024-x. Expected YYYY-MM-DD"⟩ := by
  refine ⟨?_, ?_, ?_⟩
  · have h := ((clamp_dates_spec ⟨2024, 6, 15⟩ "2023-12-25" "2099-01-01").1
      ⟨2023, 12, 25⟩ rfl ⟨2099, 1, 1⟩ rfl).2.2.1 (by decide)
    exact h.trans rfl
  · have h := ((clamp_dates_spec ⟨2024, 1, 1⟩ "2024-06-01" "2024-06-30").1
      ⟨2024, 6, 1⟩ rfl ⟨2024, 6, 30⟩ rfl).2.2.2 (by decide)
    exact h.trans rfl
  · exact (clamp_dates_spec ⟨2024, 6, 15⟩ "2024-x" "2099-01-01").2.1 rfl

/-- Claim C4: without a retry-after hint the computed sleep for attempt `n`
lies in `[2^(n-1), 2^(n-1)+1)` except where the 60-second cap bites, and never
exceeds 60; with a parseable hint of `h` seconds the sleep is at least `h`. -/
theorem backoff_bounds (n : ℕ) (r : ℚ) (hn : 1 ≤ n) (h0 : 0 ≤ r) (h1 : r < 1) :
    ((2 : ℚ) ^ (n - 1) ≤ computeSleep n r none ∨ computeSleep n r none = 60) ∧
    computeSleep n r none < (2 : ℚ) ^ (n - 1) + 1 ∧
    computeSleep n r none ≤ 60 ∧
    (∀ h : ℚ, h ≤ computeSleep n r (some h)) := by
  have hnone : computeSleep n r none = min ((2 : ℚ) ^ (n - 1) + r) 60 := rfl
  have hsome : ∀ h : ℚ, computeSleep n r (some h) = max (min ((2 : ℚ) ^ (n - 1) + r) 60) h :=
    fun h => rfl
  rw [hnone]
  refine ⟨?_, ?_, min_le_right _ _, fun h => by rw [hsome h]; exact le_max_right _ _⟩
  · rcases le_total ((2 : ℚ) ^ (n - 1) + r) 60 with hle | hge
    · exact Or.inl (by rw [min_eq_left hle]; linarith)
    · exact Or.inr (min_eq_right hge)
  · calc min ((2 : ℚ) ^ (n - 1) + r) 60 ≤ (2 : ℚ) ^ (n - 1) + r := min_le_left _ _
      _ < (2 : ℚ) ^ (n - 1) + 1 := by linarith

/-- Witness for C4 at attempt 1 with jitter 1/2 and a 30-second hint. -/
theorem backoff_bounds_witness :
    (1 : ℕ) ≤ 1 ∧ (0 : ℚ) ≤ 1 / 2 ∧ (1 : ℚ) / 2 < 1 ∧
    (((2 : ℚ) ^ (1 - 1) ≤ computeSleep 1 (1 / 2) none ∨ computeSleep 1 (1 / 2) none = 60) ∧
      computeSleep 1 (1 / 2) none < (2 : ℚ) ^ (1 - 1) + 1 ∧
      computeSleep 1 (1 / 2) none ≤ 60 ∧
      (∀ h : ℚ, h ≤ computeSleep 1 (1 / 2) (some h))) :=
  ⟨le_refl 1, by norm_num, by norm_num,
    backoff_bounds 1 (1 / 2) (le_refl 1) (by norm_num) (by norm_num)⟩

/-- Claim C5: each audited metric's reported relative difference is 0 when the
aggregate value is 0, and `(running_total - aggregate) / aggregate` otherwise;
an absent aggregate entry reads as 0; equal values give 0; and
`_pct_diff 35 40 = -0.125`. -/
theorem pct_diff_spec (sums agg : Totals) :
    ((agg.sessions = 0 → (auditDiff sums agg).sessions = 0) ∧
      (agg.sessions ≠ 0 →
        (auditDiff sums agg).sessions = (sums.sessions - agg.sessions) / agg.sessions)) ∧
    ((agg.activeUsers = 0 → (auditDiff sums agg).activeUsers = 0) ∧
      (agg.activeUsers ≠ 0 →
        (auditDiff sums agg).activeUsers = (sums.activeUsers - agg.activeUsers) / agg.activeUsers)) ∧
    ((agg.screenPageViews = 0 → (auditDiff sums agg).screenPageViews = 0) ∧
      (agg.screenPageViews ≠ 0 →
        (auditDiff sums agg).screenPageViews =
          (sums.screenPageViews - agg.screenPageViews) / agg.screenPageViews)) ∧
    ((agg.conversions = 0 → (auditDiff sums agg).conversions = 0) ∧
      (agg.conversions ≠ 0 →
        (auditDiff sums agg).conversions = (sums.conversions - agg.conversions) / agg.conversions)) ∧
    ((agg.totalRevenue = 0 → (auditDiff sums agg).totalRevenue = 0) ∧
      (agg.totalRevenue ≠ 0 →
        (auditDiff sums agg).totalRevenue =
          (sums.totalRevenue - agg.totalRevenue) / agg.totalRevenue)) ∧
    (∀ t : ℚ, _pct_diff t (aggGet none) = 0) ∧
    (∀ x : ℚ, _pct_diff x x = 0) ∧
    _pct_diff 35 40 = -(1 : ℚ) / 8 := by
  have hpz : ∀ a b : ℚ, b = 0 → _pct_diff a b = 0 := by
    intro a b hb; simp [_pct_diff, hb]
  have hpn : ∀ a b : ℚ, b ≠ 0 → _pct_diff a b = (a - b) / b := by
    intro a b hb; simp [_pct_diff, hb]
  refine ⟨⟨hpz _ _, hpn _ _⟩, ⟨hpz _ _, hpn _ _⟩, ⟨hpz _ _, hpn _ _⟩,
    ⟨hpz _ _, hpn _ _⟩, ⟨hpz _ _, hpn _ _⟩, ?_, ?_, by norm_num [_pct_diff]⟩
  · intro t; exact hpz t _ rfl
  · intro x
    by_cases hx : x = 0
    · exact hpz x x hx
    · rw [hpn x x hx]; simp

/-- Witness for C5 at the spec's own example: running total 35 against
aggregate 40 gives -0.125, and against aggregate 0 gives 0. -/
theorem pct_diff_spec_witness :
    (auditDiff ⟨35, 0, 0, 0, 0⟩ ⟨40, 0, 0, 0, 0⟩).sessions = (35 - 40 : ℚ) / 40 ∧
    (auditDiff ⟨35, 0, 0, 0, 0⟩ ⟨0, 0, 0, 0, 0⟩).sessions = 0 :=
  ⟨(pct_diff_spec ⟨35, 0, 0, 0, 0⟩ ⟨40, 0, 0, 0, 0⟩).1.2 (by norm_num),
    (pct_diff_spec ⟨35, 0, 0, 0, 0⟩ ⟨0, 0, 0, 0, 0⟩).1.1 rfl⟩

theorem runReportLoop_all_fail {ε α : Type} (fetch : ℕ → Except ε α) (jit : ℕ → ℚ)
    (ra : ℕ → Option ℚ) (maxR : ℕ) (errs : ℕ → ε)
    (hf : ∀ a, fetch a = .error (errs a)) :
    ∀ f a, a + f = maxR + 1 → 1 ≤ a → a ≤ maxR →
      runReportLoop fetch jit ra maxR f a =
        some (.error (errs maxR),
          (List.range' a (maxR - a)).map (fun i => computeSleep i (jit i) (ra i))) := by
  have hstep : ∀ f a err, fetch a = .error err →
      runReportLoop fetch jit ra maxR (f + 1) a =
        (if a = maxR then some (.error err, [])
        else
          match runReportLoop fetch jit ra maxR f (a + 1) with
          | some (res, sleeps) => some (res, computeSleep a (jit a) (ra a) :: sleeps)
          | none => none) := by
    intro f a err h
    rw [runReportLoop, h]
  intro f
  induction f with
  | zero => intro a h1 _ h3; omega
  | succ n ih =>
    intro a h1 h2 h3
    rw [hstep n a (errs a) (hf a)]
    by_cases hlast : a = maxR
    · rw [if_pos hlast, hlast, Nat.sub_self]
      rfl
    · rw [if_neg hlast, ih (a + 1) (by omega) (by omega) (by omega)]
      have hr : maxR - a = (maxR - (a + 1)) + 1 := by omega
      rw [hr, List.range'_succ, List.map_cons]

/-- Claim C10: when all attempts fail, `_run_report` re-raises the final
attempt's failure, and the backoff sleeps actually executed are exactly those
computed for attempts 1 through `maxR - 1` — the sleep computed for the final
attempt is never slept, so at most `maxR - 1` sleeps occur. -/
theorem retry_exhaustion {ε α : Type} (fetch : ℕ → Except ε α) (jit : ℕ → ℚ)
    (ra : ℕ → Option ℚ) (maxR : ℕ) (errs : ℕ → ε)
    (hmax : 1 ≤ maxR) (hf : ∀ a, fetch a = .error (errs a)) :
    _run_report fetch jit ra maxR =
      some (.error (errs maxR),
        (List.range' 1 (maxR - 1)).map (fun i => computeSleep i (jit i) (ra i))) ∧
    ((List.range' 1 (maxR - 1)).map (fun i => computeSleep i (jit i) (ra i))).length =
      maxR - 1 := by
  constructor
  · exact runReportLoop_all_fail fetch jit ra maxR errs hf maxR 1 (by omega) le_rfl hmax
  · rw [List.length_map, List.length_range']

/-- Witness for C10 with the default three attempts, all failing: the third
attempt's error is re-raised and exactly the two inter-attempt sleeps run. -/
theorem retry_exhaustion_witness :
    _run_report (fun a => (Except.error a : Except ℕ Unit)) (fun _ => 1 / 2) (fun _ => none) 3 =
      some (.error 3,
        (List.range' 1 (3 - 1)).map (fun i => computeSleep i ((fun _ => (1 : ℚ) / 2) i) none)) ∧
    ((List.range' 1 (3 - 1)).map
      (fun i => computeSleep i ((fun _ => (1 : ℚ) / 2) i) ((fun _ => none) i))).length = 3 - 1 :=
  retry_exhaustion (fun a => (Except.error a : Except ℕ Unit)) (fun _ => 1 / 2) (fun _ => none) 3
    (fun a => a) (by norm_num) (fun a => rfl)

theorem metricVal_isSome (v : String) :
    (metricVal v).isSome ↔ (v = "" ∨ (pyFloat v).isSome) := by
  unfold metricVal
  split
  · simp [*]
  · rename_i hne
    cases hp : pyFloat v <;> simp [hp, hne]

theorem mapM_metricVal_isSome (l : List String) :
    (l.mapM metricVal).isSome ↔ ∀ v ∈ l, v = "" ∨ (pyFloat v).isSome := by
  induction l with
  | nil => exact iff_of_true rfl (by simp)
  | cons a l ih =>
    rw [List.mapM_cons, List.forall_mem_cons, ← metricVal_isSome, ← ih]
    cases ha : metricVal a <;> cases hl : l.mapM metricVal <;> simp [ha, hl]

theorem mapM_metricVal_eq :
    ∀ (l : List String) (ms : List Val), l.mapM metricVal = some ms →
      ms = l.map (fun v => if v = "" then Val.vnull else Val.vf ((pyFloat v).getD 0)) := by
  intro l
  induction l with
  | nil =>
    intro ms h
    simp only [List.mapM_nil, pure, Option.some.injEq] at h
    simp [← h]
  | cons a l ih =>
    intro ms h
    rw [List.mapM_cons] at h
    cases ha : metricVal a with
    | none => rw [ha] at h; simp at h
    | some x =>
      rw [ha] at h
      cases hl : l.mapM metricVal with
      | none => rw [hl] at h; simp at h
      | some xs =>
        rw [hl] at h
        have h2 : some (x :: xs) = some ms := h
        injection h2 with h3
        have hx : x = if a = "" then Val.vnull else Val.vf ((pyFloat a).getD 0) := by
          unfold metricVal at ha
          split at ha
          · rename_i hae
            injection ha with ha2
            rw [← ha2, if_pos hae]
          · rename_i hane
            cases hp : pyFloat a
            · rw [hp] at ha; exact absurd ha (by simp)
            · rw [hp] at ha
              injection ha with ha2
              rw [← ha2, if_neg hane]
              rfl
        rw [List.map_cons, ← h3, hx, ih xs hl]

/-- Claim C6 (amended): given value lists covering the schema, row conversion
succeeds exactly when every metric value is empty or parses as a number, and
then yields the dimension strings in schema order followed by the metrics
(floats when parseable, null when empty); a non-empty unparsable metric value
makes the conversion fail (`float` raises), so it is not total. -/
theorem row_to_dict_spec (r : RawRow)
    (hd : DIMS.length ≤ r.dimension_values.length)
    (hm : METS.length ≤ r.metric_values.length) :
    ((_row_to_dict r).isSome ↔
      ∀ v ∈ r.metric_values.take METS.length, v = "" ∨ (pyFloat v).isSome) ∧
    (∀ d, _row_to_dict r = some d →
      d = (DIMS.zip r.dimension_values).map (fun p => (p.1, Val.vs p.2)) ++
          (METS.zip (r.metric_values.take METS.length)).map
            (fun p => (p.1, if p.2 = "" then Val.vnull else Val.vf ((pyFloat p.2).getD 0)))) := by
  unfold _row_to_dict
  rw [if_pos ⟨hd, hm⟩]
  constructor
  · rw [← mapM_metricVal_isSome]
    cases h : (r.metric_values.take METS.length).mapM metricVal <;> simp [h]
  · intro d hdd
    cases h : (r.metric_values.take METS.length).mapM metricVal with
    | none => rw [h] at hdd; exact absurd hdd (by simp)
    | some ms =>
      rw [h] at hdd
      simp only [Option.some.injEq] at hdd
      rw [← hdd, mapM_metricVal_eq _ ms h]
      congr 1
      rw [List.zip_map_right]
      apply List.map_congr_left
      intro p _
      cases p
      rfl

/-- A well-formed raw row: eight dimension strings, nine numeric metrics. -/
def oneRow : RawRow :=
  ⟨["2024-01-01", "US", "NYC", "desktop", "/", "google", "cpc", "camp"],
   ["1", "1", "1", "1", "1", "1", "1", "1", "1"]⟩

/-- A raw row with full arity whose first metric value is non-empty but not a
number, so `float("abc")` raises inside `_row_to_dict`. -/
def badRow : RawRow :=
  ⟨["2024-01-01", "US", "NYC", "desktop", "/", "google", "cpc", "camp"],
   ["abc", "", "1", "2", "3", "4", "5", "6", "7"]⟩

/-- Counterexample to C6 as stated: conversion is not total — on a full-arity
row whose first metric value is the non-empty unparsable string "abc", the
conversion raises (returns `none`) instead of mapping the value to null. -/
theorem row_to_dict_fails_on_unparsable : _row_to_dict badRow = none := by rfl

/-- Witness for C6 at a fully numeric row. -/
theorem row_to_dict_spec_witness :
    (_row_to_dict oneRow).isSome ↔
      ∀ v ∈ oneRow.metric_values.take METS.length, v = "" ∨ (pyFloat v).isSome :=
  (row_to_dict_spec oneRow (by decide) (by decide)).1

/-! ## The 205-row truncation-detection scenario (claim C2) -/

/-- The simulated remote source of `test_exportar_many_pages_no_partial`:
`row_count` hint 205, one row per page while the offset is below 205, no
continuation token. -/
def fetch205 : Option String → ℕ → Resp :=
  fun _ off => if 205 ≤ off then ⟨[], some 205, none⟩ else ⟨[oneRow], some 205, none⟩

set_option maxRecDepth 100000 in
/-- Counterexample to C2 as stated: with page size 1 and max pages exactly 205,
the export does emit 205 rows and report `pages = 205`, but the cap check
`pages >= max_pages` fires first, so `partial` is `true` with reason
`max_pages` — not `false` as claimed when the cap and the total coincide. -/
theorem export205_cap205_partial :
    (genRun fetch205 205).map
      (fun r => (r.final.rows.length, r.final.pages, partOf r.final 205)) =
      some (205, 205, (true, some "max_pages")) := by
  rfl

set_option maxRecDepth 100000 in
/-- Claim C2 (amended): with page size 1 and a page cap strictly above 205
(such as the default 10000 used by the repository's own test), the export
emits exactly 205 rows, reports `pages = 205`, and reports `partial = false`
because the running offset reached the reported total of 205 without hitting
the cap; when the cap equals the total exactly, the export is instead marked
partial with reason `max_pages` (the cap check wins). -/
theorem export205_default_cap :
    (genRun fetch205 10000).map
      (fun r => (r.final.rows.length, r.final.pages, partOf r.final 10000)) =
      some (205, 205, (false, none)) := by
  rfl

/-! ## The streamed document is not one valid JSON value (claim C1) -/

/-- A remote source with no rows at all: the smallest complete export. -/
def fetchEmpty : Option String → ℕ → Resp := fun _ _ => ⟨[], none, none⟩

set_option maxRecDepth 100000 in
/-- Claim C1 (code bug): concatenating, in order, every chunk the whole-range
generator emits — `'{"rows":['`, the rows, `'],'`, `_dumps(body_tail)`, `'}'` —
does not form a syntactically valid JSON document, because the serialized
trailing object is emitted as a bare `{...}` value right after the comma that
follows the row array, where an object key would be required. Evaluated here
on the empty export. -/
theorem export_document_not_json :
    (exportDocument fetchEmpty 10000 "2024-01-01" "2024-01-31" zeroTotals).map jsonValid =
      some false := by
  rfl

set_option maxRecDepth 100000 in
/-- Sanity check that the pieces themselves are well formed: the serialized
trailing object alone is valid JSON — only the assembly of the chunks is
broken. -/
theorem export_tail_valid_json :
    (genRun fetchEmpty 10000).map
      (fun r => jsonValid (dumpsTail r.final 10000 "2024-01-01" "2024-01-31" zeroTotals)) =
      some true := by
  rfl

/-! ## Cursor advancement (claim C7) and running totals (claim C8) -/

theorem genStep_next_cursor (fetch : Option String → ℕ → Resp) (maxPages : ℕ)
    (st st3 : GenState) (h : genStep fetch maxPages st = .next st3) :
    st3.pageToken = (fetch st.pageToken st.offset).next_page_token ∧
    (tokenTruthy (fetch st.pageToken st.offset).next_page_token = true → st3.offset = 0) ∧
    (tokenTruthy (fetch st.pageToken st.offset).next_page_token = false →
      st3.offset = st.offset + (fetch st.pageToken st.offset).rows.length) := by
  simp only [genStep] at h
  cases hp : processRows st.sums (fetch st.pageToken st.offset).rows with
  | none => rw [hp] at h; simp at h
  | some p =>
    obtain ⟨ds, sums2⟩ := p
    rw [hp] at h
    simp only at h
    by_cases hb : (fetch st.pageToken st.offset).rows.length = 0
    · simp [hb] at h
    · rw [if_neg hb] at h
      by_cases htok : tokenTruthy (fetch st.pageToken st.offset).next_page_token = true
      · simp only [htok, if_true] at h
        split at h
        · simp at h
        · injection h with h2
          rw [← h2]
          exact ⟨rfl, fun _ => rfl, fun hf => absurd htok (by simp [hf])⟩
      · rw [Bool.not_eq_true] at htok
        simp only [htok, Bool.false_eq_true, if_false] at h
        split at h
        · simp at h
        · injection h with h2
          rw [← h2]
          exact ⟨rfl, fun ht => absurd ht (by simp [htok]), fun _ => rfl⟩

theorem processRows_spec :
    ∀ (rs : List RawRow) (t : Totals) (ds : List (List (String × Val))) (t2 : Totals),
      processRows t rs = some (ds, t2) → t2 = ds.foldl addRow t := by
  intro rs
  induction rs with
  | nil =>
    intro t ds t2 h
    simp only [processRows, Option.some.injEq, Prod.mk.injEq] at h
    rw [← h.1, ← h.2]
    rfl
  | cons r rs ih =>
    intro t ds t2 h
    rw [processRows] at h
    cases hd : _row_to_dict r with
    | none => rw [hd] at h; simp at h
    | some d =>
      rw [hd] at h
      simp only at h
      cases hrest : processRows (addRow t d) rs with
      | none => rw [hrest] at h; simp at h
      | some p =>
        obtain ⟨ds2, t3⟩ := p
        rw [hrest] at h
        simp only [Option.some.injEq, Prod.mk.injEq] at h
        rw [← h.1, ← h.2, List.foldl_cons]
        exact ih (addRow t d) ds2 t3 hrest

theorem genStep_rows_sums (fetch : Option String → ℕ → Resp) (maxPages : ℕ)
    (st st' : GenState)
    (h : genStep fetch maxPages st = .stop st' ∨ genStep fetch maxPages st = .next st') :
    ∃ ds, st'.rows = st.rows ++ ds ∧ st'.sums = ds.foldl addRow st.sums := by
  have main : ∀ out, genStep fetch maxPages st = out →
      (∀ s2, out = .stop s2 ∨ out = .next s2 →
        ∃ ds, s2.rows = st.rows ++ ds ∧ s2.sums = ds.foldl addRow st.sums) := by
    intro out hout
    simp only [genStep] at hout
    cases hp : processRows st.sums (fetch st.pageToken st.offset).rows with
    | none =>
      rw [hp] at hout
      intro s2 hcase
      rw [← hout] at hcase
      simp at hcase
    | some p =>
      obtain ⟨ds, sums2⟩ := p
      have hfold := processRows_spec _ _ _ _ hp
      rw [hp] at hout
      simp only at hout
      intro s2 hcase
      rw [← hout] at hcase
      rcases hcase with hc | hc <;> (repeat' split at hc) <;>
        first
          | (injection hc with hc2
             subst hc2
             exact ⟨ds, rfl, hfold⟩)
          | simp at hc
  rcases h with hs | hs
  · exact main _ hs st' (Or.inl rfl)
  · exact main _ hs st' (Or.inr rfl)

theorem genLoop_calls_head (fetch : Option String → ℕ → Resp) (maxPages : ℕ) :
    ∀ (fuel : ℕ) (st : GenState) (r : GenResult), genLoop fetch maxPages fuel st = some r →
      r.calls.head? = some (st.pageToken, st.offset) := by
  intro fuel st r h
  cases fuel with
  | zero => simp [genLoop] at h
  | succ f =>
    rw [genLoop] at h
    cases hs : genStep fetch maxPages st with
    | err => rw [hs] at h; simp at h
    | stop st2 =>
      rw [hs] at h
      simp only at h
      injection h with h2
      rw [← h2]
      rfl
    | next st3 =>
      rw [hs] at h
      simp only at h
      cases hrec : genLoop fetch maxPages f st3 with
      | none => rw [hrec] at h; simp at h
      | some r2 =>
        rw [hrec] at h
        simp only at h
        injection h with h2
        rw [← h2]
        rfl

theorem get_zero_of_head? {α : Type} {l : List α} {x : α}
    (hh : l.head? = some x) (h : 0 < l.length) : l.get ⟨0, h⟩ = x := by
  cases l with
  | nil => simp at hh
  | cons a t =>
    injection hh with hh2

/-- The cursor-advancement relation of claim C7, between the cursor of one
fetch and the cursor of the next: the next request carries the response's
continuation token; when that token is truthy the numeric offset is reset to
zero, and when it is absent (or empty) the offset grows by exactly the number
of rows just received. -/
def CursorStep (fetch : Option String → ℕ → Resp) (prev nxt : Option String × ℕ) : Prop :=
  nxt.1 = (fetch prev.1 prev.2).next_page_token ∧
  (tokenTruthy (fetch prev.1 prev.2).next_page_token = true → nxt.2 = 0) ∧
  (tokenTruthy (fetch prev.1 prev.2).next_page_token = false →
    nxt.2 = prev.2 + (fetch prev.1 prev.2).rows.length)

theorem genLoop_cursor_chain (fetch : Option String → ℕ → Resp) (maxPages : ℕ) :
    ∀ (fuel : ℕ) (st : GenState) (r : GenResult), genLoop fetch maxPages fuel st = some r →
      ∀ i (h1 : i + 1 < r.calls.length),
        CursorStep fetch (r.calls.get ⟨i, Nat.lt_of_succ_lt h1⟩) (r.calls.get ⟨i + 1, h1⟩) := by
  intro fuel
  induction fuel with
  | zero => intro st r h; simp [genLoop] at h
  | succ f ih =>
    intro st r h
    rw [genLoop] at h
    cases hs : genStep fetch maxPages st with
    | err => rw [hs] at h; simp at h
    | stop st2 =>
      rw [hs] at h
      simp only at h
      injection h with h2
      subst h2
      intro i h1
      simp at h1
    | next st3 =>
      rw [hs] at h
      simp only at h
      cases hrec : genLoop fetch maxPages f st3 with
      | none => rw [hrec] at h; simp at h
      | some r2 =>
        rw [hrec] at h
        simp only at h
        injection h with h2
        subst h2
        intro i h1
        cases i with
        | zero =>
          have hlen : 0 < r2.calls.length := by
            simp only [List.length_cons] at h1
            omega
          have hget : r2.calls.get ⟨0, hlen⟩ = (st3.pageToken, st3.offset) :=
            get_zero_of_head? (genLoop_calls_head fetch maxPages f st3 r2 hrec) hlen
          have hcur := genStep_next_cursor fetch maxPages st st3 hs
          show CursorStep fetch (st.pageToken, st.offset) (r2.calls.get ⟨0, hlen⟩)
          rw [hget]
          exact hcur
        | succ i =>
          have h1A : i + 1 < r2.calls.length := by
            simp only [List.length_cons] at h1
            omega
          exact ih st3 r2 hrec i h1A

/-- Claim C7: along any successful whole-range run, after every non-terminal
fetch the next request's cursor carries the response's continuation token —
with the numeric offset reset to zero when that token is truthy — and when no
token came back, the token field is simply the response's empty token while
the offset grows by exactly the number of rows just received. -/
theorem cursor_advance (fetch : Option String → ℕ → Resp) (maxPages : ℕ)
    (r : GenResult) (h : genRun fetch maxPages = some r) :
    ∀ i (h1 : i + 1 < r.calls.length),
      CursorStep fetch (r.calls.get ⟨i, Nat.lt_of_succ_lt h1⟩) (r.calls.get ⟨i + 1, h1⟩) :=
  genLoop_cursor_chain fetch maxPages (maxPages + 1) initState r h

/-- A remote source serving exactly one row (at offset 0) and then nothing. -/
def fetchOnce : Option String → ℕ → Resp :=
  fun _ off => if off = 0 then ⟨[oneRow], none, none⟩ else ⟨[], none, none⟩

set_option maxRecDepth 40000 in
/-- The computed result of running the export against `fetchOnce`. -/
def resOnce : GenResult := (genRun fetchOnce 10).get (by rfl)

set_option maxRecDepth 40000 in
/-- Witness for C7: in the two-fetch run against `fetchOnce`, the second
request's cursor follows from the first response as claimed. -/
theorem cursor_advance_witness :
    CursorStep fetchOnce (resOnce.calls.get ⟨0, by decide⟩) (resOnce.calls.get ⟨1, by decide⟩) :=
  cursor_advance fetchOnce 10 resOnce (by rfl) 0 (by decide)

theorem genLoop_rows_sums (fetch : Option String → ℕ → Resp) (maxPages : ℕ) :
    ∀ (fuel : ℕ) (st : GenState) (r : GenResult), genLoop fetch maxPages fuel st = some r →
      ∃ ext, r.final.rows = st.rows ++ ext ∧ r.final.sums = ext.foldl addRow st.sums := by
  intro fuel
  induction fuel with
  | zero => intro st r h; simp [genLoop] at h
  | succ f ih =>
    intro st r h
    rw [genLoop] at h
    cases hs : genStep fetch maxPages st with
    | err => rw [hs] at h; simp at h
    | stop st2 =>
      rw [hs] at h
      simp only at h
      injection h with h2
      subst h2
      exact genStep_rows_sums fetch maxPages st st2 (Or.inl hs)
    | next st3 =>
      rw [hs] at h
      simp only at h
      cases hrec : genLoop fetch maxPages f st3 with
      | none => rw [hrec] at h; simp at h
      | some r2 =>
        rw [hrec] at h
        simp only at h
        injection h with h2
        subst h2
        obtain ⟨ds, hrows3, hsums3⟩ := genStep_rows_sums fetch maxPages st st3 (Or.inr hs)
        obtain ⟨ext, hre, hse⟩ := ih st3 r2 hrec
        refine ⟨ds ++ ext, ?_, ?_⟩
        · show r2.final.rows = st.rows ++ (ds ++ ext)
          rw [hre, hrows3, List.append_assoc]
        · show r2.final.sums = (ds ++ ext).foldl addRow st.sums
          rw [hse, hsums3, List.foldl_append]

/-- The per-metric fold of claim C8: sum a metric over the emitted row dicts
in emission order, null (and missing and non-numeric) read as 0. -/
def foldNum (k : String) (rows : List (List (String × Val))) : ℚ :=
  rows.foldl (fun a d => a + getNum d k) 0

theorem foldl_addRow_fields (l : List (List (String × Val))) :
    ∀ t : Totals,
      (l.foldl addRow t).sessions = l.foldl (fun a d => a + getNum d "sessions") t.sessions ∧
      (l.foldl addRow t).activeUsers =
        l.foldl (fun a d => a + getNum d "activeUsers") t.activeUsers ∧
      (l.foldl addRow t).screenPageViews =
        l.foldl (fun a d => a + getNum d "screenPageViews") t.screenPageViews ∧
      (l.foldl addRow t).conversions =
        l.foldl (fun a d => a + getNum d "conversions") t.conversions ∧
      (l.foldl addRow t).totalRevenue =
        l.foldl (fun a d => a + getNum d "totalRevenue") t.totalRevenue := by
  induction l with
  | nil => intro t; exact ⟨rfl, rfl, rfl, rfl, rfl⟩
  | cons d l ih =>
    intro t
    simp only [List.foldl_cons]
    exact ih (addRow t d)

theorem foldNum_from (k : String) (l : List (List (String × Val))) :
    ∀ b : ℚ, l.foldl (fun a d => a + getNum d k) b = b + foldNum k l := by
  suffices h : ∀ b : ℚ, l.foldl (fun a d => a + getNum d k) b =
      b + l.foldl (fun a d => a + getNum d k) 0 by
    intro b; exact h b
  induction l with
  | nil => intro b; simp
  | cons d l ih =>
    intro b
    simp only [List.foldl_cons]
    rw [ih (b + getNum d k), ih (0 + getNum d k)]
    ring

theorem foldNum_eq_sum (k : String) (l : List (List (String × Val))) :
    foldNum k l = (l.map (fun d => getNum d k)).sum := by
  induction l with
  | nil => rfl
  | cons d l ih =>
    rw [foldNum, List.foldl_cons, foldNum_from, List.map_cons, List.sum_cons, ih]
    ring

theorem sum_take_mono (g : List (String × Val) → ℚ) (l : List (List (String × Val)))
    (hpos : ∀ d ∈ l, 0 ≤ g d) :
    ∀ i j, i ≤ j → ((l.take i).map g).sum ≤ ((l.take j).map g).sum := by
  intro i j hij
  induction j, hij using Nat.le_induction with
  | base => exact le_refl _
  | succ j hij ih =>
    refine le_trans ih ?_
    rw [List.take_succ, List.map_append, List.sum_append]
    have : 0 ≤ ((l[j]?.toList).map g).sum := by
      cases hg : l[j]? with
      | none => simp
      | some d =>
        have hd : d ∈ l := by
          have hg2 : l.get? j = some d := by rw [List.get?_eq_getElem?, hg]
          exact List.get?_mem hg2
        simp [hpos d hd]
    linarith

/-- Claim C8: on every successful whole-range run, each of the five running
accumulators equals the fold of addition over that metric's values across the
emitted rows in order (null read as zero); the totals depend only on the
emitted row sequence — not on how pagination split it into pages — and under
nonnegative metric values every accumulator is monotone along the stream,
never decremented. -/
theorem running_totals_fold (fetch : Option String → ℕ → Resp) (maxPages : ℕ)
    (r : GenResult) (h : genRun fetch maxPages = some r) :
    (r.final.sums.sessions = foldNum "sessions" r.final.rows ∧
      r.final.sums.activeUsers = foldNum "activeUsers" r.final.rows ∧
      r.final.sums.screenPageViews = foldNum "screenPageViews" r.final.rows ∧
      r.final.sums.conversions = foldNum "conversions" r.final.rows ∧
      r.final.sums.totalRevenue = foldNum "totalRevenue" r.final.rows) ∧
    (∀ (fetch2 : Option String → ℕ → Resp) (maxPages2 : ℕ) (r2 : GenResult),
      genRun fetch2 maxPages2 = some r2 → r2.final.rows = r.final.rows →
      r2.final.sums = r.final.sums) ∧
    (∀ k, (∀ d ∈ r.final.rows, 0 ≤ getNum d k) →
      ∀ i j, i ≤ j → foldNum k (r.final.rows.take i) ≤ foldNum k (r.final.rows.take j)) := by
  have main : ∀ (fetchA : Option String → ℕ → Resp) (maxPagesA : ℕ) (rA : GenResult),
      genRun fetchA maxPagesA = some rA →
      rA.final.sums.sessions = foldNum "sessions" rA.final.rows ∧
      rA.final.sums.activeUsers = foldNum "activeUsers" rA.final.rows ∧
      rA.final.sums.screenPageViews = foldNum "screenPageViews" rA.final.rows ∧
      rA.final.sums.conversions = foldNum "conversions" rA.final.rows ∧
      rA.final.sums.totalRevenue = foldNum "totalRevenue" rA.final.rows := by
    intro fetchA maxPagesA rA hA
    obtain ⟨ext, hrows, hsums⟩ :=
      genLoop_rows_sums fetchA maxPagesA (maxPagesA + 1) initState rA hA
    have hext : rA.final.rows = ext := by
      rw [hrows]; rfl
    obtain ⟨f1, f2, f3, f4, f5⟩ := foldl_addRow_fields ext zeroTotals
    rw [hext, hsums]
    exact ⟨f1, f2, f3, f4, f5⟩
  refine ⟨main fetch maxPages r h, fun fetch2 maxPages2 r2 h2 hrows => ?_, fun k hpos i j hij => ?_⟩
  · obtain ⟨a1, a2, a3, a4, a5⟩ := main fetch maxPages r h
    obtain ⟨b1, b2, b3, b4, b5⟩ := main fetch2 maxPages2 r2 h2
    have hfin : ∀ x y : Totals,
        x.sessions = y.sessions → x.activeUsers = y.activeUsers →
        x.screenPageViews = y.screenPageViews → x.conversions = y.conversions →
        x.totalRevenue = y.totalRevenue → x = y := by
      intro x y e1 e2 e3 e4 e5
      cases x; cases y
      simp only at e1 e2 e3 e4 e5
      rw [e1, e2, e3, e4, e5]
    exact hfin _ _ (by rw [b1, a1, hrows]) (by rw [b2, a2, hrows])
      (by rw [b3, a3, hrows]) (by rw [b4, a4, hrows]) (by rw [b5, a5, hrows])
  · rw [foldNum_eq_sum, foldNum_eq_sum]
    exact sum_take_mono (fun d => getNum d k) r.final.rows hpos i j hij

set_option maxRecDepth 40000 in
/-- Witness for C8 on the one-row run: the sessions accumulator equals the
fold over the emitted rows. -/
theorem running_totals_fold_witness :
    resOnce.final.sums.sessions = foldNum "sessions" resOnce.final.rows :=
  ((running_totals_fold fetchOnce 10 resOnce (by rfl)).1).1

theorem Date.le_antisymm {a b : Date} (h1 : a ≤ b) (h2 : b ≤ a) : a = b := by
  cases a; cases b
  simp only [Date.le_iff] at h1 h2
  simp only [Date.mk.injEq]
  omega

theorem daysInMonth_pos (y m : ℕ) : 1 ≤ daysInMonth y m := by
  unfold daysInMonth
  repeat' split <;> norm_num

theorem monthIdx_nmf {d : Date} (h1 : 1 ≤ d.month) (h2 : d.month ≤ 12) :
    monthIdx (nextMonthFirst d) = monthIdx d + 1 := by
  simp only [monthIdx, nextMonthFirst]
  omega

theorem lt_nmf {d : Date} (h2 : d.month ≤ 12) : d < nextMonthFirst d := by
  rw [Date.lt_iff]
  simp only [nextMonthFirst]
  omega

theorem monthIdx_le_of_le {a b : Date} (h : a ≤ b) (hm : a.month ≤ 12) :
    monthIdx a ≤ monthIdx b := by
  rw [Date.le_iff] at h
  simp only [monthIdx]
  omega

theorem lt_of_monthIdx_lt {a b : Date} (ha1 : 1 ≤ a.month) (ha2 : a.month ≤ 12)
    (hb1 : 1 ≤ b.month) (hb2 : b.month ≤ 12) (h : monthIdx a < monthIdx b) :
    a < b := by
  rw [Date.lt_iff]
  simp only [monthIdx] at h
  omega

theorem monthIdx_inj {a b : Date} (ha1 : 1 ≤ a.month) (ha2 : a.month ≤ 12)
    (hb1 : 1 ≤ b.month) (hb2 : b.month ≤ 12) (h : monthIdx a = monthIdx b) :
    a.year = b.year ∧ a.month = b.month := by
  simp only [monthIdx] at h
  omega

theorem le_of_monthIdx_le_day1 {a e : Date} (ha1 : 1 ≤ a.month) (ha2 : a.month ≤ 12)
    (he1 : 1 ≤ e.month) (he2 : e.month ≤ 12) (hd : a.day = 1) (hed : 1 ≤ e.day)
    (h : monthIdx a ≤ monthIdx e) : a ≤ e := by
  rw [Date.le_iff]
  simp only [monthIdx] at h
  omega

theorem predDate_nmf {d : Date} (h1 : 1 ≤ d.month) (h2 : d.month ≤ 12) :
    predDate (nextMonthFirst d) = endOfMonth d := by
  obtain ⟨y, m, dd⟩ := d
  simp only at h1 h2
  interval_cases m <;>
    simp [predDate, nextMonthFirst, endOfMonth, daysInMonth]

theorem succ_eom {d : Date} (h1 : 1 ≤ d.month) (h2 : d.month ≤ 12) :
    succDate (endOfMonth d) = nextMonthFirst d := by
  obtain ⟨y, m, dd⟩ := d
  simp only at h1 h2
  interval_cases m <;>
    simp [succDate, nextMonthFirst, endOfMonth, daysInMonth]


theorem rangeOf_month (s e cur : Date) (hsv : isValidDate s) (hev : isValidDate e)
    (hse : s ≤ e) (hd1 : cur.day = 1) (hm1 : 1 ≤ cur.month) (hm2 : cur.month ≤ 12)
    (hscur : monthIdx s ≤ monthIdx cur) (hcure : cur ≤ e) :
    rangeOf s e cur = some ((if cur < s then s else cur),
      (if monthIdx cur = monthIdx e then e else endOfMonth cur)) ∧
    (if cur < s then s else cur) ≤ (if monthIdx cur = monthIdx e then e else endOfMonth cur) ∧
    (if cur < s then s else cur).year = cur.year ∧
    (if cur < s then s else cur).month = cur.month ∧
    (if monthIdx cur = monthIdx e then e else endOfMonth cur).year = cur.year ∧
    (if monthIdx cur = monthIdx e then e else endOfMonth cur).month = cur.month := by
  obtain ⟨hsy, hsm1, hsm2, hsd1, hsd2⟩ := hsv
  obtain ⟨hey, hem1, hem2, hed1, hed2⟩ := hev
  have hidxle : monthIdx cur ≤ monthIdx e := monthIdx_le_of_le hcure hm2
  have hsyme : cur < s → s.year = cur.year ∧ s.month = cur.month := by
    intro hlt
    have h1 := monthIdx_le_of_le (Date.le_of_lt hlt) hm2
    exact monthIdx_inj hsm1 hsm2 hm1 hm2 (by omega)
  have hstart_y : (if cur < s then s else cur).year = cur.year := by
    split
    · exact (hsyme (by assumption)).1
    · rfl
  have hstart_m : (if cur < s then s else cur).month = cur.month := by
    split
    · exact (hsyme (by assumption)).2
    · rfl
  have hend_y : (if monthIdx cur = monthIdx e then e else endOfMonth cur).year = cur.year := by
    split
    · rename_i hii
      exact (monthIdx_inj hm1 hm2 hem1 hem2 hii).1.symm
    · rfl
  have hend_m : (if monthIdx cur = monthIdx e then e else endOfMonth cur).month = cur.month := by
    split
    · rename_i hii
      exact (monthIdx_inj hm1 hm2 hem1 hem2 hii).2.symm
    · rfl
  have hAB : (if cur < s then s else cur) ≤
      (if monthIdx cur = monthIdx e then e else endOfMonth cur) := by
    by_cases hlt : cur < s
    · rw [if_pos hlt]
      by_cases hii : monthIdx cur = monthIdx e
      · rw [if_pos hii]; exact hse
      · rw [if_neg hii]
        obtain ⟨hy2, hm2e⟩ := hsyme hlt
        rw [Date.le_iff]
        refine Or.inr ⟨?_, Or.inr ⟨?_, ?_⟩⟩
        · exact hy2
        · exact hm2e
        · show s.day ≤ daysInMonth cur.year cur.month
          rw [hy2, hm2e] at hsd2
          exact hsd2
    · rw [if_neg hlt]
      by_cases hii : monthIdx cur = monthIdx e
      · rw [if_pos hii]; exact hcure
      · rw [if_neg hii]
        rw [Date.le_iff]
        refine Or.inr ⟨rfl, Or.inr ⟨rfl, ?_⟩⟩
        show cur.day ≤ daysInMonth cur.year cur.month
        have := daysInMonth_pos cur.year cur.month
        omega
  have hEndEq : (if e < endOfMonth cur then e else endOfMonth cur) =
      (if monthIdx cur = monthIdx e then e else endOfMonth cur) := by
    by_cases hii : monthIdx cur = monthIdx e
    · rw [if_pos hii]
      obtain ⟨hy2, hm2e⟩ := monthIdx_inj hm1 hm2 hem1 hem2 hii
      have he_le : e ≤ endOfMonth cur := by
        rw [Date.le_iff]
        refine Or.inr ⟨hy2.symm, Or.inr ⟨hm2e.symm, ?_⟩⟩
        show e.day ≤ daysInMonth cur.year cur.month
        rw [hy2, hm2e]
        exact hed2
      split
      · rfl
      · rename_i hnlt
        exact Date.le_antisymm (Date.not_lt.mp hnlt) he_le
    · rw [if_neg hii]
      have hlt : monthIdx (endOfMonth cur) < monthIdx e := by
        have : monthIdx (endOfMonth cur) = monthIdx cur := rfl
        omega
      have heom_lt : endOfMonth cur < e := lt_of_monthIdx_lt hm1 hm2 hem1 hem2 hlt
      rw [if_neg (Date.not_lt.mpr (Date.le_of_lt heom_lt))]
  have hro : rangeOf s e cur = some ((if cur < s then s else cur),
      (if monthIdx cur = monthIdx e then e else endOfMonth cur)) := by
    simp only [rangeOf]
    rw [predDate_nmf hm1 hm2, hEndEq]
    rw [if_neg (Date.not_lt.mpr hAB)]
  exact ⟨hro, hAB, hstart_y, hstart_m, hend_y, hend_m⟩

theorem monthRangeAux_succ (e cur : Date) (f : ℕ) :
    monthRangeAux e (f + 1) cur =
      if cur ≤ e then cur :: monthRangeAux e f (nextMonthFirst cur) else [] := rfl

theorem subChunks_spec (s e : Date) (hsv : isValidDate s) (hev : isValidDate e) (hse : s ≤ e) :
    ∀ (f : ℕ) (cur : Date), cur.day = 1 → 1 ≤ cur.month → cur.month ≤ 12 →
      monthIdx e + 1 ≤ f + monthIdx cur → monthIdx s ≤ monthIdx cur →
      ((monthRangeAux e f cur).filterMap (rangeOf s e) = [] ↔ ¬ cur ≤ e) ∧
      (∀ p, ((monthRangeAux e f cur).filterMap (rangeOf s e)).head? = some p →
        p.1 = (if cur < s then s else cur)) ∧
      (∀ p, ((monthRangeAux e f cur).filterMap (rangeOf s e)).getLast? = some p → p.2 = e) ∧
      (∀ p ∈ (monthRangeAux e f cur).filterMap (rangeOf s e),
        p.1.year = p.2.year ∧ p.1.month = p.2.month ∧ p.1 ≤ p.2) ∧
      ((monthRangeAux e f cur).filterMap (rangeOf s e)).Chain'
        (fun p q => p.2 = endOfMonth p.1 ∧ q.1 = succDate p.2 ∧ q.1.day = 1) := by
  intro f
  induction f with
  | zero =>
    intro cur hd1 hm1 hm2 hfuel hscur
    have hnle : ¬ cur ≤ e := by
      intro hle
      have := monthIdx_le_of_le hle hm2
      omega
    refine ⟨by simp [monthRangeAux, hnle], ?_, ?_, ?_, ?_⟩
    · intro p hp; simp [monthRangeAux] at hp
    · intro p hp; simp [monthRangeAux] at hp
    · intro p hp; simp [monthRangeAux] at hp
    · simp [monthRangeAux]
  | succ f ih =>
    intro cur hd1 hm1 hm2 hfuel hscur
    by_cases hcure : cur ≤ e
    case neg =>
      have hlist : monthRangeAux e (f + 1) cur = [] := by
        rw [monthRangeAux_succ, if_neg hcure]
      refine ⟨by simp [hlist, hcure], ?_, ?_, ?_, ?_⟩
      · intro p hp; simp [hlist] at hp
      · intro p hp; simp [hlist] at hp
      · intro p hp; simp [hlist] at hp
      · simp [hlist]
    case pos =>
      obtain ⟨hro, hAB, hAy, hAm, hBy, hBm⟩ :=
        rangeOf_month s e cur hsv hev hse hd1 hm1 hm2 hscur hcure
      have hT : (monthRangeAux e (f + 1) cur).filterMap (rangeOf s e) =
          ((if cur < s then s else cur),
            (if monthIdx cur = monthIdx e then e else endOfMonth cur)) ::
            (monthRangeAux e f (nextMonthFirst cur)).filterMap (rangeOf s e) := by
        rw [monthRangeAux_succ, if_pos hcure, List.filterMap_cons, hro]
      have hnm1 : 1 ≤ (nextMonthFirst cur).month := by
        simp only [nextMonthFirst]
        omega
      have hnm2 : (nextMonthFirst cur).month ≤ 12 := by
        simp only [nextMonthFirst]
        omega
      have hnd1 : (nextMonthFirst cur).day = 1 := rfl
      have hidx : monthIdx (nextMonthFirst cur) = monthIdx cur + 1 := monthIdx_nmf hm1 hm2
      have hfuel2 : monthIdx e + 1 ≤ f + monthIdx (nextMonthFirst cur) := by omega
      have hscur2 : monthIdx s ≤ monthIdx (nextMonthFirst cur) := by omega
      obtain ⟨ihiff, ihhead, ihlast, ihmem, ihchain⟩ :=
        ih (nextMonthFirst cur) hnd1 hnm1 hnm2 hfuel2 hscur2
      by_cases hnle : nextMonthFirst cur ≤ e
      case neg =>
        have hT2 : (monthRangeAux e f (nextMonthFirst cur)).filterMap (rangeOf s e) = [] :=
          ihiff.mpr hnle
        have hii : monthIdx cur = monthIdx e := by
          have h1 := monthIdx_le_of_le hcure hm2
          by_contra hne2
          exact hnle (le_of_monthIdx_le_day1 hnm1 hnm2 hev.2.1 hev.2.2.1 hnd1 hev.2.2.2.1
            (by omega))
        have hBe : (if monthIdx cur = monthIdx e then e else endOfMonth cur) = e := if_pos hii
        rw [hT, hT2]
        refine ⟨by simp [hcure], ?_, ?_, ?_, ?_⟩
        · intro p hp
          injection hp with hp2
          rw [← hp2]
        · intro p hp
          simp only [List.getLast?_singleton, Option.some.injEq] at hp
          rw [← hp, hBe]
        · intro p hp
          simp only [List.mem_singleton] at hp
          subst hp
          exact ⟨by rw [hAy, hBy], by rw [hAm, hBm], hAB⟩
        · exact List.chain'_singleton _
      case pos =>
        have hT2ne : (monthRangeAux e f (nextMonthFirst cur)).filterMap (rangeOf s e) ≠ [] := by
          intro h0
          exact (ihiff.mp h0) hnle
        have hii : monthIdx cur < monthIdx e := by
          have := monthIdx_le_of_le hnle hnm2
          omega
        have hBeom : (if monthIdx cur = monthIdx e then e else endOfMonth cur) = endOfMonth cur :=
          if_neg (by omega)
        have hnmf_not_lt_s : ¬ nextMonthFirst cur < s := by
          rw [Date.not_lt]
          exact Date.le_of_lt (lt_of_monthIdx_lt hsv.2.1 hsv.2.2.1 hnm1 hnm2 (by omega))
        rw [hT]
        refine ⟨by simp [hcure], ?_, ?_, ?_, ?_⟩
        · intro p hp
          injection hp with hp2
          rw [← hp2]
        · intro p hp
          cases hc : (monthRangeAux e f (nextMonthFirst cur)).filterMap (rangeOf s e) with
          | nil => exact absurd hc hT2ne
          | cons c t =>
            rw [hc, List.getLast?_cons_cons] at hp
            apply ihlast
            rw [hc]
            exact hp
        · intro p hp
          rcases List.mem_cons.mp hp with hp2 | hp2
          · subst hp2
            exact ⟨by rw [hAy, hBy], by rw [hAm, hBm], hAB⟩
          · exact ihmem p hp2
        · rw [List.chain'_cons']
          refine ⟨?_, ihchain⟩
          intro b hb
          have hb2 : ((monthRangeAux e f (nextMonthFirst cur)).filterMap (rangeOf s e)).head? =
              some b := hb
          have hb1 : b.1 = (if nextMonthFirst cur < s then s else nextMonthFirst cur) :=
            ihhead b hb2
          rw [if_neg hnmf_not_lt_s] at hb1
          refine ⟨?_, ?_, ?_⟩
          · show (if monthIdx cur = monthIdx e then e else endOfMonth cur) =
              endOfMonth (if cur < s then s else cur)
            rw [hBeom]
            have : endOfMonth (if cur < s then s else cur) = endOfMonth cur := by
              unfold endOfMonth
              rw [hAy, hAm]
            rw [this]
          · show b.1 = succDate (if monthIdx cur = monthIdx e then e else endOfMonth cur)
            rw [hBeom, succ_eom hm1 hm2, hb1]
          · rw [hb1]
            rfl

/-- Claim C9: monthly-chunked mode partitions the clamped range into
consecutive calendar-month sub-ranges — each sub-range stays inside one
month, the first starts at the requested start, the last ends at the
requested end, every non-terminal sub-range ends on its month's last day and
every non-initial sub-range starts on the first day of the following month —
and in particular 2024-01-15..2024-03-10 decomposes into exactly
[2024-01-15, 2024-01-31], [2024-02-01, 2024-02-29], [2024-03-01, 2024-03-10]. -/
theorem month_chunks_spec :
    monthSubRanges ⟨2024, 1, 15⟩ ⟨2024, 3, 10⟩ =
      [(⟨2024, 1, 15⟩, ⟨2024, 1, 31⟩), (⟨2024, 2, 1⟩, ⟨2024, 2, 29⟩),
       (⟨2024, 3, 1⟩, ⟨2024, 3, 10⟩)] ∧
    ∀ s e : Date, isValidDate s → isValidDate e → s ≤ e →
      monthSubRanges s e ≠ [] ∧
      (∀ p, (monthSubRanges s e).head? = some p → p.1 = s) ∧
      (∀ p, (monthSubRanges s e).getLast? = some p → p.2 = e) ∧
      (∀ p ∈ monthSubRanges s e, p.1.year = p.2.year ∧ p.1.month = p.2.month ∧ p.1 ≤ p.2) ∧
      (monthSubRanges s e).Chain'
        (fun p q => p.2 = endOfMonth p.1 ∧ q.1 = succDate p.2 ∧ q.1.day = 1) := by
  constructor
  · decide
  · intro s e hsv hev hse
    have hfom_m1 : 1 ≤ (firstOfMonth s).month := hsv.2.1
    have hfom_m2 : (firstOfMonth s).month ≤ 12 := hsv.2.2.1
    have hfuel : monthIdx e + 1 ≤
        (monthIdx e + 1 - monthIdx (firstOfMonth s)) + monthIdx (firstOfMonth s) := by omega
    obtain ⟨hiff, hhead, hlast, hmem, hchain⟩ :=
      subChunks_spec s e hsv hev hse (monthIdx e + 1 - monthIdx (firstOfMonth s))
        (firstOfMonth s) rfl hfom_m1 hfom_m2 hfuel (Nat.le_refl _)
    have hfom_le : firstOfMonth s ≤ s := by
      rw [Date.le_iff]
      exact Or.inr ⟨rfl, Or.inr ⟨rfl, hsv.2.2.2.1⟩⟩
    have hfom_e : firstOfMonth s ≤ e := Date.le_trans hfom_le hse
    have hne : monthSubRanges s e ≠ [] := by
      intro h0
      exact (hiff.mp h0) hfom_e
    have hstart : (if firstOfMonth s < s then s else firstOfMonth s) = s := by
      by_cases hd : firstOfMonth s < s
      · rw [if_pos hd]
      · rw [if_neg hd]
        exact Date.le_antisymm hfom_le (Date.not_lt.mp hd)
    refine ⟨hne, ?_, hlast, hmem, hchain⟩
    intro p hp
    have h2 := hhead p hp
    rw [hstart] at h2
    exact h2

/-- Witness for C9: the general clauses applied to the spec's concrete range. -/
theorem month_chunks_spec_witness :
    isValidDate ⟨2024, 1, 15⟩ ∧ isValidDate ⟨2024, 3, 10⟩ ∧
    (⟨2024, 1, 15⟩ : Date) ≤ ⟨2024, 3, 10⟩ ∧
    monthSubRanges ⟨2024, 1, 15⟩ ⟨2024, 3, 10⟩ ≠ [] ∧
    (∀ p, (monthSubRanges ⟨2024, 1, 15⟩ ⟨2024, 3, 10⟩).head? = some p → p.1 = ⟨2024, 1, 15⟩) ∧
    (∀ p, (monthSubRanges ⟨2024, 1, 15⟩ ⟨2024, 3, 10⟩).getLast? = some p → p.2 = ⟨2024, 3, 10⟩) :=
  ⟨by decide, by decide, by decide,
    (month_chunks_spec.2 ⟨2024, 1, 15⟩ ⟨2024, 3, 10⟩ (by decide) (by decide) (by decide)).1,
    (month_chunks_spec.2 ⟨2024, 1, 15⟩ ⟨2024, 3, 10⟩ (by decide) (by decide) (by decide)).2.1,
    (month_chunks_spec.2 ⟨2024, 1, 15⟩ ⟨2024, 3, 10⟩ (by decide) (by decide) (by decide)).2.2.1⟩

end DM
